import Mathlib

/-!
Verification of the feblr/sso authorization model.

The repository's source core is the relational schema and migration SQL
(`sso.role_permissions` bulk DELETE, `sso.authorizations` table) plus an
Angular contact-list data service.  The RBAC / ledger state is embedded
shallowly: tables become lists of records, SQL statements and the engine
operations of the specification become pure functions on that state.
-/

namespace SSO

/-- A row of `sso.permissions`: `{id, resource_type, action}`. -/
structure Permission where
  id : Nat
  resource_type : Nat
  action : Nat
deriving DecidableEq, Repr

/-- A row of `sso.roles`: `{id, name}`. -/
structure Role where
  id : Nat
  name : String
deriving DecidableEq, Repr

/-- A row of the `sso.role_permissions` join table. -/
structure RolePermission where
  role_id : Nat
  permission_id : Nat
deriving DecidableEq, Repr

/-- The RBAC portion of the store: roles, permissions, their join table,
and the user-to-role assignment join table. -/
structure RbacState where
  roles : List Role
  permissions : List Permission
  rolePermissions : List RolePermission
  principalRoles : List (Nat × Nat)
deriving DecidableEq, Repr

/-- The subquery `SELECT id FROM sso.permissions WHERE resource_type IN F`. -/
def permIdsWithResourceTypeIn (st : RbacState) (f : List Nat) : List Nat :=
  (st.permissions.filter (fun p => decide (p.resource_type ∈ f))).map (fun p => p.id)

/-- Modelled from the spec: the engine operation
`revokePermissions(roleID, resourceTypeFilter)` of §4.3, which generalizes
the migration's concrete statement
`DELETE FROM sso.role_permissions WHERE role_id IN (SELECT id FROM sso.roles
WHERE name = 'admin') AND permission_id IN (SELECT id FROM sso.permissions
WHERE resource_type IN (2,3,4,5,6,7))` to an arbitrary role id and filter
set.  A join row is deleted exactly when its role is the given role and its
permission id belongs to a permission whose resource type is in the filter. -/
def revokePermissions (st : RbacState) (roleID : Nat) (f : List Nat) : RbacState :=
  { st with
    rolePermissions := st.rolePermissions.filter
      (fun rp => !(decide (rp.role_id = roleID) &&
        decide (rp.permission_id ∈ permIdsWithResourceTypeIn st f))) }

/-- Sample state for the spec scenario: role `admin` (id 1) holds one
permission for each resource type 1..7. -/
def adminState : RbacState :=
  { roles := [{ id := 1, name := "admin" }]
    permissions :=
      [{ id := 1, resource_type := 1, action := 0 }, { id := 2, resource_type := 2, action := 0 },
       { id := 3, resource_type := 3, action := 0 }, { id := 4, resource_type := 4, action := 0 },
       { id := 5, resource_type := 5, action := 0 }, { id := 6, resource_type := 6, action := 0 },
       { id := 7, resource_type := 7, action := 0 }]
    rolePermissions :=
      [{ role_id := 1, permission_id := 1 }, { role_id := 1, permission_id := 2 },
       { role_id := 1, permission_id := 3 }, { role_id := 1, permission_id := 4 },
       { role_id := 1, permission_id := 5 }, { role_id := 1, permission_id := 6 },
       { role_id := 1, permission_id := 7 }]
    principalRoles := [] }

/-- A row of `sso.authorizations`:
`{id, user_id, client_id, scope_id, created_time, updated_time?, removed_time?, status}`.
Timestamps are modelled as naturals, `status` as an integer (`DEFAULT 0`). -/
structure Authorization where
  id : Nat
  user_id : Nat
  client_id : Nat
  scope_id : Nat
  created_time : Nat
  updated_time : Option Nat
  removed_time : Option Nat
  status : Int
deriving DecidableEq, Repr

/-- Status value 0 is active (schema default). -/
def ACTIVE : Int := 0

/-- Modelled from the spec: the revoked status value; the schema shows only
`0 = active`, non-zero values are spec-defined extensions (`Active`/`Revoked`
at minimum, §9). -/
def REVOKED : Int := 1

/-- The authorization ledger: the `sso.authorizations` table plus the
`bigserial` id counter. -/
structure Ledger where
  rows : List Authorization
  nextId : Nat
deriving DecidableEq, Repr

/-- Boolean match of a row against the unique key `(user_id, client_id, scope_id)`. -/
def authKeyB (r : Authorization) (u c s : Nat) : Bool :=
  decide (r.user_id = u) && decide (r.client_id = c) && decide (r.scope_id = s)

/-- The unique key of a row. -/
def authKey (r : Authorization) : Nat × Nat × Nat :=
  (r.user_id, r.client_id, r.scope_id)

/-- Look up the ledger row for a `(user, client, scope)` triple. -/
def findAuth (rows : List Authorization) (u c s : Nat) : Option Authorization :=
  rows.find? (fun r => authKeyB r u c s)

/-- The `authorizations_unique_key UNIQUE (user_id, client_id, scope_id)`
constraint: at most one ledger row per triple. -/
@[reducible] def keysUnique (rows : List Authorization) : Prop :=
  (rows.map authKey).Nodup

/-- The freshly inserted row of a first grant: `status = ACTIVE`,
`created_time = now`, id drawn from the `bigserial` counter. -/
def newAuthRow (st : Ledger) (u c s now : Nat) : Authorization :=
  { id := st.nextId, user_id := u, client_id := c, scope_id := s,
    created_time := now, updated_time := none, removed_time := none, status := ACTIVE }

/-- Transition of an existing row back to `ACTIVE`: `updated_time = now`,
`removed_time` cleared (spec §4.4, grant step 4). -/
def reactivate (b : Authorization) (now : Nat) : Authorization :=
  { b with status := ACTIVE, updated_time := some now, removed_time := none }

/-- Soft-delete transition of a row: `status = REVOKED`,
`removed_time = now`, `updated_time = now` (spec §4.4, revoke step 3). -/
def markRevoked (b : Authorization) (now : Nat) : Authorization :=
  { b with status := REVOKED, removed_time := some now, updated_time := some now }

/-- Modelled from the spec: `grant(userID, clientID, scopeID)` of §4.4.
Absent: insert with `status = ACTIVE`, `created_time = now`.  Present and
active: no-op, return the existing row.  Present and not active: transition
to `ACTIVE`, set `updated_time = now`, clear `removed_time`.  `now` is the
transaction timestamp. -/
def grant (st : Ledger) (u c s : Nat) (now : Nat) : Ledger × Authorization :=
  match findAuth st.rows u c s with
  | none =>
      ({ rows := st.rows ++ [newAuthRow st u c s now], nextId := st.nextId + 1 },
       newAuthRow st u c s now)
  | some a =>
      if a.status = ACTIVE then (st, a)
      else
        ({ st with rows := st.rows.map (fun r => if authKeyB r u c s then reactivate a now else r) },
         reactivate a now)

/-- Modelled from the spec: `revoke(userID, clientID, scopeID)` of §4.4.
`none` encodes the `NotFound` failure; already-not-active rows are returned
unchanged (idempotent); an active row transitions to `REVOKED` with
`removed_time = now`, `updated_time = now` (soft delete). -/
def revoke (st : Ledger) (u c s : Nat) (now : Nat) : Option (Ledger × Authorization) :=
  match findAuth st.rows u c s with
  | none => none
  | some a =>
      if a.status = ACTIVE then
        some ({ st with rows := st.rows.map (fun r => if authKeyB r u c s then markRevoked a now else r) },
          markRevoked a now)
      else
        some (st, a)

/-- Ordering of ledger rows by `created_time`, ascending. -/
def byCreated (a b : Authorization) : Prop :=
  a.created_time ≤ b.created_time

instance : DecidableRel byCreated := fun a b => Nat.decLe a.created_time b.created_time

instance : IsTotal Authorization byCreated :=
  ⟨fun a b => Nat.le_total a.created_time b.created_time⟩

instance : IsTrans Authorization byCreated :=
  ⟨fun _ _ _ hab hbc => Nat.le_trans hab hbc⟩

/-- Modelled from the spec: `listActiveForUser(userID)` of §4.4 — active
rows of the user only, ordered by `created_time` ascending. -/
def listActiveForUser (st : Ledger) (u : Nat) : List Authorization :=
  List.insertionSort byCreated
    (st.rows.filter (fun a => decide (a.user_id = u) && decide (a.status = ACTIVE)))

/-- Modelled from the spec: the role ids currently assigned to a user
(`PrincipalRole` join rows of §3 with that user). -/
def userRoleIds (st : RbacState) (u : Nat) : List Nat :=
  (st.principalRoles.filter (fun pr => decide (pr.1 = u))).map (fun pr => pr.2)

/-- Modelled from the spec: `effectivePermissions(userID)` of §4.2 — the
union of permissions over all roles currently assigned to the user. -/
def effectivePermissions (st : RbacState) (u : Nat) : List Nat :=
  (st.rolePermissions.filter (fun rp => decide (rp.role_id ∈ userRoleIds st u))).map
    (fun rp => rp.permission_id)

/-- Modelled from the spec: `resolvePermission(resourceType, action)` of
§4.1 — the permission id registered for the pair, `none` for `NotFound`. -/
def resolvePermission (st : RbacState) (t a : Nat) : Option Nat :=
  (st.permissions.find? (fun p => decide (p.resource_type = t) && decide (p.action = a))).map
    (fun p => p.id)

/-- Outcome of a permission check. -/
inductive Decision where
  | Allow
  | Deny
deriving DecidableEq, Repr

/-- Modelled from the spec: `check(userID, resourceType, action)` of §4.5 —
resolve the permission id, Deny when none exists, otherwise Allow exactly
when the id is among the user's effective permissions. -/
def check (st : RbacState) (u t a : Nat) : Decision :=
  match resolvePermission st t a with
  | none => Decision.Deny
  | some pid =>
      if pid ∈ effectivePermissions st u then Decision.Allow else Decision.Deny

/-- Sample RBAC state for the check scenario: permission 9 guards
`(resource_type 4, action 2)`, role 5 holds it, user 42 holds role 5. -/
def checkState : RbacState :=
  { roles := [{ id := 5, name := "viewer" }]
    permissions := [{ id := 9, resource_type := 4, action := 2 }]
    rolePermissions := [{ role_id := 5, permission_id := 9 }]
    principalRoles := [(42, 5)] }

/-- The empty ledger. -/
def emptyLedger : Ledger := { rows := [], nextId := 1 }

/-- A ledger holding one active row for the spec scenario triple `(42, 7, 3)`. -/
def sampleRow : Authorization :=
  { id := 1, user_id := 42, client_id := 7, scope_id := 3,
    created_time := 1, updated_time := none, removed_time := none, status := 0 }

/-- Ledger whose only row is `sampleRow` (active). -/
def sampleLedger : Ledger := { rows := [sampleRow], nextId := 2 }

/-- The row `sampleRow` after a revocation at time 2. -/
def revokedRow : Authorization :=
  { id := 1, user_id := 42, client_id := 7, scope_id := 3,
    created_time := 1, updated_time := some 2, removed_time := some 2, status := 1 }

/-- Ledger whose only row is `revokedRow` (not active). -/
def revokedLedger : Ledger := { rows := [revokedRow], nextId := 2 }

end SSO

namespace Frontend

/-- The `ContactType` enum of `contact-model.service.ts` (`Email = 1`, `Phone`). -/
inductive ContactType where
  | Email
  | Phone
deriving DecidableEq, Repr

/-- The `Contact` interface of `contact-model.service.ts`. -/
structure Contact where
  id : Nat
  identity : String
  type_id : ContactType
  status : Int
deriving DecidableEq, Repr

/-- The service's state: the `ContactStore` plus the list last pushed
through the `BehaviorSubject`. -/
structure ContactStoreState where
  contacts : List Contact
  emitted : List Contact
deriving DecidableEq, Repr

/-- JS `Array.prototype.findIndex`: index of the first match, `-1` when no
element matches. -/
def findIndexJS (l : List Contact) (p : Contact → Bool) : Int :=
  match l.findIdx? p with
  | some i => (i : Int)
  | none => -1

/-- JS `Array.prototype.splice(start, deleteCount)` restricted to its
removal effect on the array: a negative `start` counts from the end clamped
at 0, a too-large `start` clamps to the length; up to `deleteCount`
elements from that position are removed. -/
def spliceRemove (l : List Contact) (start : Int) (deleteCount : Nat) : List Contact :=
  let len := l.length
  let actualStart : Nat := if start < 0 then len - (-start).toNat else min start.toNat len
  l.take actualStart ++ l.drop (actualStart + deleteCount)

namespace ContactModelService

/-- The `select(userId)` subscription callback: replace the store's
contacts with the server list and emit the same list. -/
def select (_st : ContactStoreState) (serverContacts : List Contact) : ContactStoreState :=
  { contacts := serverContacts, emitted := serverContacts }

/-- The `create(contact)` success callback: `this.store.contacts.push(contact)`
then `this.subject.next(Object.assign(\x7b\x7d, this.store).contacts)` — the
shallow copy's `contacts` field is the very same just-pushed array, so the
emitted list is the appended store list. -/
def create (st : ContactStoreState) (c : Contact) : ContactStoreState :=
  { contacts := st.contacts ++ [c], emitted := st.contacts ++ [c] }

/-- The `remove(contact)` success callback, `c` being the contact the
server returned: `findIndex` of `c.id` over the store, `splice(index, 1)`,
then emit the store's (mutated) contacts array. -/
def remove (st : ContactStoreState) (c : Contact) : ContactStoreState :=
  let l := spliceRemove st.contacts
    (findIndexJS st.contacts (fun x => decide (x.id = c.id))) 1
  { contacts := l, emitted := l }

end ContactModelService

/-- A one-element store for the remove scenario. -/
def oneContact : Contact := { id := 1, identity := "a@b", type_id := ContactType.Email, status := 0 }

/-- A contact whose id (2) appears nowhere in the one-element store. -/
def strangerContact : Contact := { id := 2, identity := "x", type_id := ContactType.Phone, status := 0 }

/-- Store holding exactly `oneContact`, already emitted. -/
def oneContactStore : ContactStoreState := { contacts := [oneContact], emitted := [oneContact] }

end Frontend

namespace SSO

/-- C1: `revokePermissions(R, F)` deletes exactly the `RolePermission` rows
whose role is `R` and whose permission's resource type is in `F`; rows of
other roles, and rows of `R` whose permission's resource type is outside
`F`, survive.  In particular, on the state where role `admin` (id 1) holds
permissions for resource types 1..7, revoking `{2..7}` leaves exactly the
resource-type-1 join row. -/
theorem revokePermissions_exact (st : RbacState) (roleID : Nat) (f : List Nat) :
    (∀ rp : RolePermission,
      rp ∈ (revokePermissions st roleID f).rolePermissions ↔
        rp ∈ st.rolePermissions ∧
          ¬(rp.role_id = roleID ∧
            ∃ p ∈ st.permissions, p.id = rp.permission_id ∧ p.resource_type ∈ f)) ∧
    (revokePermissions adminState 1 [2, 3, 4, 5, 6, 7]).rolePermissions =
      [{ role_id := 1, permission_id := 1 }] := by
  constructor
  · intro rp
    simp only [revokePermissions, permIdsWithResourceTypeIn, List.mem_filter, List.mem_map,
      List.mem_filter, Bool.not_eq_true', Bool.and_eq_false_iff, decide_eq_false_iff_not,
      decide_eq_true_eq]
    constructor
    · rintro ⟨hmem, hcond⟩
      refine ⟨hmem, ?_⟩
      rintro ⟨hrole, p, hp, hpid, hrt⟩
      rcases hcond with h | h
      · exact h hrole
      · exact h ⟨p, ⟨hp, hrt⟩, hpid⟩
    · rintro ⟨hmem, hcond⟩
      refine ⟨hmem, ?_⟩
      by_cases hrole : rp.role_id = roleID
      · right
        rintro ⟨p, ⟨hp, hrt⟩, hpid⟩
        exact hcond ⟨hrole, p, hp, hpid, hrt⟩
      · exact Or.inl hrole
  · decide

lemma authKeyB_iff (r : Authorization) (u c s : Nat) :
    authKeyB r u c s = true ↔ r.user_id = u ∧ r.client_id = c ∧ r.scope_id = s := by
  simp [authKeyB, and_assoc]

lemma authKey_eq_of_keyB {r : Authorization} {u c s : Nat} (h : authKeyB r u c s = true) :
    authKey r = (u, c, s) := by
  rcases (authKeyB_iff r u c s).mp h with ⟨h1, h2, h3⟩
  simp [authKey, h1, h2, h3]

lemma keyB_eq_key {r : Authorization} {u c s : Nat} :
    authKeyB r u c s = decide (authKey r = (u, c, s)) := by
  rcases h : decide (authKey r = (u, c, s)) with _ | _
  · rw [decide_eq_false_iff_not] at h
    rcases hk : authKeyB r u c s with _ | _
    · rfl
    · exact absurd (authKey_eq_of_keyB hk) h
  · rw [decide_eq_true_eq] at h
    simp only [authKey, Prod.mk.injEq] at h
    simp [authKeyB_iff, h.1, h.2.1, h.2.2]

lemma findAuth_some_keyB {rows : List Authorization} {u c s : Nat} {a : Authorization}
    (h : findAuth rows u c s = some a) : authKeyB a u c s = true := by
  unfold findAuth at h
  have h2 := List.find?_some h
  simpa using h2

lemma findAuth_some_mem {rows : List Authorization} {u c s : Nat} {a : Authorization}
    (h : findAuth rows u c s = some a) : a ∈ rows := by
  unfold findAuth at h
  exact List.mem_of_find?_eq_some h

lemma find?_map_update {A : Type} (p : A → Bool) (rows : List A) (a' : A)
    (h : p a' = true) :
    List.find? p (rows.map (fun r => if p r then a' else r)) =
      (List.find? p rows).map (fun _ => a') := by
  induction rows with
  | nil => rfl
  | cons r rs ih =>
    rcases hr : p r with _ | _
    · have hfr : (if p r then a' else r) = r := by simp [hr]
      rw [List.map_cons, hfr, List.find?_cons_of_neg _ (by simp [hr]),
        List.find?_cons_of_neg _ (by simp [hr])]
      exact ih
    · have hfr : (if p r then a' else r) = a' := by simp [hr]
      rw [List.map_cons, hfr, List.find?_cons_of_pos _ h, List.find?_cons_of_pos _ hr]
      rfl

lemma keys_map_update (rows : List Authorization) (u c s : Nat) (a' : Authorization)
    (h : authKeyB a' u c s = true) :
    (rows.map (fun r => if authKeyB r u c s then a' else r)).map authKey =
      rows.map authKey := by
  rw [List.map_map]
  apply List.map_congr_left
  intro r _
  rcases hr : authKeyB r u c s with _ | _
  · simp [Function.comp, hr]
  · simp only [Function.comp, hr, if_true]
    rw [authKey_eq_of_keyB h, authKey_eq_of_keyB hr]

lemma countP_map_update {A : Type} (p : A → Bool) (rows : List A) (a' : A)
    (h : p a' = true) :
    (rows.map (fun r => if p r then a' else r)).countP p = rows.countP p := by
  induction rows with
  | nil => rfl
  | cons r rs ih =>
    rcases hr : p r with _ | _
    · simp [List.countP_cons, hr, ih]
    · simp [List.countP_cons, hr, h, ih]

lemma countP_key_le_one {rows : List Authorization} (h : keysUnique rows) (u c s : Nat) :
    rows.countP (fun r => authKeyB r u c s) ≤ 1 := by
  induction rows with
  | nil => simp
  | cons r rs ih =>
    rw [keysUnique, List.map_cons, List.nodup_cons] at h
    obtain ⟨hnotin, hnodup⟩ := h
    rcases hr : authKeyB r u c s with _ | _
    · simpa [List.countP_cons, hr] using ih hnodup
    · have hzero : rs.countP (fun x => authKeyB x u c s) = 0 := by
        rw [List.countP_eq_zero]
        intro x hx hpx
        exact hnotin (List.mem_map.mpr
          ⟨x, hx, by rw [authKey_eq_of_keyB hpx, authKey_eq_of_keyB hr]⟩)
      simp [List.countP_cons, hr, hzero]

lemma eq_find_of_countP_le_one {p : Authorization → Bool} {l : List Authorization}
    (h : l.countP p ≤ 1) {r : Authorization} (hr : r ∈ l) (hp : p r = true) :
    l.find? p = some r := by
  induction l with
  | nil => cases hr
  | cons x xs ih =>
    rcases List.mem_cons.mp hr with rfl | hr'
    · rw [List.find?_cons_of_pos _ hp]
    · rcases hx : p x with _ | _
      · rw [List.find?_cons_of_neg _ (by simp [hx])]
        apply ih _ hr'
        simpa [List.countP_cons, hx] using h
      · exfalso
        have h1 : 0 < xs.countP p := List.countP_pos_iff.mpr ⟨r, hr', hp⟩
        have h2 : xs.countP p + 1 ≤ 1 := by simpa [List.countP_cons, hx] using h
        omega

lemma authKeyB_reactivate (b : Authorization) (now u c s : Nat) :
    authKeyB (reactivate b now) u c s = authKeyB b u c s := rfl

lemma authKeyB_markRevoked (b : Authorization) (now u c s : Nat) :
    authKeyB (markRevoked b now) u c s = authKeyB b u c s := rfl

lemma grant_none_eq (st : Ledger) (u c s now : Nat)
    (hfind : findAuth st.rows u c s = none) :
    grant st u c s now =
      ({ rows := st.rows ++ [newAuthRow st u c s now], nextId := st.nextId + 1 },
       newAuthRow st u c s now) := by
  simp only [grant, hfind]

lemma grant_found_active_eq (st : Ledger) (u c s now : Nat) {b : Authorization}
    (hfind : findAuth st.rows u c s = some b) (hst : b.status = ACTIVE) :
    grant st u c s now = (st, b) := by
  simp only [grant, hfind]
  rw [if_pos hst]

lemma grant_found_inactive_eq (st : Ledger) (u c s now : Nat) {b : Authorization}
    (hfind : findAuth st.rows u c s = some b) (hst : ¬b.status = ACTIVE) :
    grant st u c s now =
      ({ st with rows := st.rows.map (fun r => if authKeyB r u c s then reactivate b now else r) },
       reactivate b now) := by
  simp only [grant, hfind]
  rw [if_neg hst]

lemma revoke_none_eq (st : Ledger) (u c s now : Nat)
    (hfind : findAuth st.rows u c s = none) :
    revoke st u c s now = none := by
  simp only [revoke, hfind]

lemma revoke_found_active_eq (st : Ledger) (u c s now : Nat) {b : Authorization}
    (hfind : findAuth st.rows u c s = some b) (hst : b.status = ACTIVE) :
    revoke st u c s now =
      some ({ st with rows := st.rows.map (fun r => if authKeyB r u c s then markRevoked b now else r) },
        markRevoked b now) := by
  simp only [revoke, hfind]
  rw [if_pos hst]

lemma revoke_found_inactive_eq (st : Ledger) (u c s now : Nat) {b : Authorization}
    (hfind : findAuth st.rows u c s = some b) (hst : ¬b.status = ACTIVE) :
    revoke st u c s now = some (st, b) := by
  simp only [revoke, hfind]
  rw [if_neg hst]

lemma grant_preserves_unique (st : Ledger) (u c s now : Nat) (h : keysUnique st.rows) :
    keysUnique (grant st u c s now).1.rows := by
  rcases hfind : findAuth st.rows u c s with _ | b
  · rw [grant_none_eq st u c s now hfind]
    simp only [keysUnique, List.map_append, List.map_cons, List.map_nil]
    rw [List.nodup_append]
    refine ⟨h, List.nodup_singleton _, ?_⟩
    intro k hk hk1
    simp only [List.mem_singleton] at hk1
    obtain ⟨r, hrmem, hrkey⟩ := List.mem_map.mp hk
    have hfalse : ¬ authKeyB r u c s = true := by
      unfold findAuth at hfind
      exact List.find?_eq_none.mp hfind r hrmem
    apply hfalse
    rw [keyB_eq_key, decide_eq_true_eq, hrkey, hk1]
    simp [authKey, newAuthRow]
  · have hkb : authKeyB b u c s = true := findAuth_some_keyB hfind
    by_cases hst : b.status = ACTIVE
    · rw [grant_found_active_eq st u c s now hfind hst]
      exact h
    · rw [grant_found_inactive_eq st u c s now hfind hst]
      have hkb' : authKeyB (reactivate b now) u c s = true := by
        rw [authKeyB_reactivate]
        exact hkb
      unfold keysUnique
      rw [keys_map_update _ u c s _ hkb']
      exact h

lemma revoke_preserves_unique (st : Ledger) (u c s now : Nat) (h : keysUnique st.rows)
    {st' : Ledger} {a : Authorization} (hrev : revoke st u c s now = some (st', a)) :
    keysUnique st'.rows := by
  rcases hfind : findAuth st.rows u c s with _ | b
  · rw [revoke_none_eq st u c s now hfind] at hrev
    cases hrev
  · have hkb : authKeyB b u c s = true := findAuth_some_keyB hfind
    by_cases hst : b.status = ACTIVE
    · rw [revoke_found_active_eq st u c s now hfind hst] at hrev
      injection hrev with h1
      injection h1 with h2 h3
      subst h2
      have hkb' : authKeyB (markRevoked b now) u c s = true := by
        rw [authKeyB_markRevoked]
        exact hkb
      unfold keysUnique
      rw [keys_map_update _ u c s _ hkb']
      exact h
    · rw [revoke_found_inactive_eq st u c s now hfind hst] at hrev
      injection hrev with h1
      injection h1 with h2 h3
      subst h2
      exact h

lemma grant_active (st : Ledger) (u c s now : Nat) :
    (grant st u c s now).2.status = ACTIVE := by
  rcases hfind : findAuth st.rows u c s with _ | b
  · rw [grant_none_eq st u c s now hfind]
    rfl
  · by_cases hst : b.status = ACTIVE
    · rw [grant_found_active_eq st u c s now hfind hst]
      exact hst
    · rw [grant_found_inactive_eq st u c s now hfind hst]
      rfl

lemma findAuth_grant (st : Ledger) (u c s now : Nat) :
    findAuth (grant st u c s now).1.rows u c s = some (grant st u c s now).2 := by
  rcases hfind : findAuth st.rows u c s with _ | b
  · rw [grant_none_eq st u c s now hfind]
    unfold findAuth at hfind ⊢
    simp only [List.find?_append, hfind, Option.none_or]
    rw [List.find?_cons_of_pos]
    simp [authKeyB, newAuthRow]
  · have hkb : authKeyB b u c s = true := findAuth_some_keyB hfind
    by_cases hst : b.status = ACTIVE
    · rw [grant_found_active_eq st u c s now hfind hst]
      exact hfind
    · rw [grant_found_inactive_eq st u c s now hfind hst]
      have hkb' : authKeyB (reactivate b now) u c s = true := by
        rw [authKeyB_reactivate]
        exact hkb
      unfold findAuth at hfind ⊢
      rw [find?_map_update (fun r => authKeyB r u c s) st.rows _ hkb', hfind]
      rfl

lemma countP_key_grant (st : Ledger) (u c s now : Nat) (h : keysUnique st.rows) :
    (grant st u c s now).1.rows.countP (fun r => authKeyB r u c s) = 1 := by
  rcases hfind : findAuth st.rows u c s with _ | b
  · rw [grant_none_eq st u c s now hfind]
    have hzero : st.rows.countP (fun r => authKeyB r u c s) = 0 := by
      rw [List.countP_eq_zero]
      unfold findAuth at hfind
      exact List.find?_eq_none.mp hfind
    simp only [List.countP_append, hzero]
    simp [List.countP_cons, authKeyB, newAuthRow]
  · have hkb : authKeyB b u c s = true := findAuth_some_keyB hfind
    have hmem : b ∈ st.rows := findAuth_some_mem hfind
    have hpos : 0 < st.rows.countP (fun r => authKeyB r u c s) :=
      List.countP_pos_iff.mpr ⟨b, hmem, hkb⟩
    have hone : st.rows.countP (fun r => authKeyB r u c s) = 1 := by
      have hle := countP_key_le_one h u c s
      omega
    by_cases hst : b.status = ACTIVE
    · rw [grant_found_active_eq st u c s now hfind hst]
      exact hone
    · rw [grant_found_inactive_eq st u c s now hfind hst]
      have hkb' : authKeyB (reactivate b now) u c s = true := by
        rw [authKeyB_reactivate]
        exact hkb
      rw [countP_map_update (fun r => authKeyB r u c s) st.rows _ hkb']
      exact hone

/-- C3: `revokePermissions` is idempotent — applying it twice with the same
role and filter yields the same state as applying it once, and the second
application is a successful no-op. -/
theorem revokePermissions_idempotent (st : RbacState) (roleID : Nat) (f : List Nat) :
    revokePermissions (revokePermissions st roleID f) roleID f =
      revokePermissions st roleID f := by
  simp only [revokePermissions, permIdsWithResourceTypeIn, List.filter_filter]
  congr 1
  apply List.filter_congr
  intro rp _
  exact Bool.and_self _

lemma findAuth_revoke (st : Ledger) (u c s now : Nat) {st' : Ledger} {a : Authorization}
    (hrev : revoke st u c s now = some (st', a)) :
    findAuth st'.rows u c s = some a ∧
    st'.rows.countP (fun r => authKeyB r u c s) =
      st.rows.countP (fun r => authKeyB r u c s) := by
  rcases hfind : findAuth st.rows u c s with _ | b
  · rw [revoke_none_eq st u c s now hfind] at hrev
    cases hrev
  · have hkb : authKeyB b u c s = true := findAuth_some_keyB hfind
    by_cases hst : b.status = ACTIVE
    · rw [revoke_found_active_eq st u c s now hfind hst] at hrev
      injection hrev with h1
      injection h1 with h2 h3
      subst h2
      subst h3
      have hk2 : authKeyB (markRevoked b now) u c s = true := by
        rw [authKeyB_markRevoked]
        exact hkb
      constructor
      · unfold findAuth at hfind ⊢
        rw [find?_map_update (fun r => authKeyB r u c s) st.rows _ hk2, hfind]
        rfl
      · exact countP_map_update (fun r => authKeyB r u c s) st.rows _ hk2
    · rw [revoke_found_inactive_eq st u c s now hfind hst] at hrev
      injection hrev with h1
      injection h1 with h2 h3
      subst h2
      subst h3
      exact ⟨hfind, rfl⟩

/-- C2: every ledger operation preserves the `authorizations_unique_key`
invariant — at most one row per `(user_id, client_id, scope_id)` triple.
Grant and revoke on an existing triple mutate that row in place: the row
count is unchanged, no duplicate is ever inserted. -/
theorem ledger_unique_key_preserved (st : Ledger) (u c s now : Nat)
    (h : keysUnique st.rows) :
    keysUnique (grant st u c s now).1.rows ∧
    (∀ st' a, revoke st u c s now = some (st', a) → keysUnique st'.rows) ∧
    ((findAuth st.rows u c s).isSome →
      (grant st u c s now).1.rows.length = st.rows.length) ∧
    (∀ st' a, revoke st u c s now = some (st', a) →
      st'.rows.length = st.rows.length) := by
  refine ⟨grant_preserves_unique st u c s now h,
    fun st' a hrev => revoke_preserves_unique st u c s now h hrev, ?_, ?_⟩
  · intro hsome
    rcases hfind : findAuth st.rows u c s with _ | b
    · rw [hfind] at hsome
      simp at hsome
    · by_cases hst : b.status = ACTIVE
      · rw [grant_found_active_eq st u c s now hfind hst]
      · rw [grant_found_inactive_eq st u c s now hfind hst]
        simp
  · intro st' a hrev
    rcases hfind : findAuth st.rows u c s with _ | b
    · rw [revoke_none_eq st u c s now hfind] at hrev
      cases hrev
    · by_cases hst : b.status = ACTIVE
      · rw [revoke_found_active_eq st u c s now hfind hst] at hrev
        injection hrev with h1
        injection h1 with h2 h3
        subst h2
        simp
      · rw [revoke_found_inactive_eq st u c s now hfind hst] at hrev
        injection hrev with h1
        injection h1 with h2 h3
        subst h2
        rfl

theorem ledger_unique_key_preserved_witness :
    keysUnique (grant sampleLedger 42 7 3 5).1.rows ∧
    (∀ st' a, revoke sampleLedger 42 7 3 5 = some (st', a) → keysUnique st'.rows) :=
  ⟨(ledger_unique_key_preserved sampleLedger 42 7 3 5 (by decide)).1,
   (ledger_unique_key_preserved sampleLedger 42 7 3 5 (by decide)).2.1⟩

/-- C4: granting the same triple twice leaves exactly one ledger row for the
triple, that row is `ACTIVE`, and the second call is a pure no-op: it
returns the row of the first call unchanged — in particular with the same
`created_time` — and leaves the ledger untouched. -/
theorem grant_idempotent (st : Ledger) (u c s t1 t2 : Nat) (h : keysUnique st.rows) :
    (grant (grant st u c s t1).1 u c s t2).1 = (grant st u c s t1).1 ∧
    (grant (grant st u c s t1).1 u c s t2).2 = (grant st u c s t1).2 ∧
    (grant (grant st u c s t1).1 u c s t2).2.created_time =
      (grant st u c s t1).2.created_time ∧
    (grant (grant st u c s t1).1 u c s t2).1.rows.countP
      (fun r => authKeyB r u c s) = 1 ∧
    (∀ r ∈ (grant (grant st u c s t1).1 u c s t2).1.rows,
      authKeyB r u c s = true → r.status = ACTIVE) := by
  have hfg := findAuth_grant st u c s t1
  have hact := grant_active st u c s t1
  have heq : grant (grant st u c s t1).1 u c s t2 =
      ((grant st u c s t1).1, (grant st u c s t1).2) :=
    grant_found_active_eq _ u c s t2 hfg hact
  have hcount := countP_key_grant st u c s t1 h
  refine ⟨by rw [heq], by rw [heq], by rw [heq], by rw [heq]; exact hcount, ?_⟩
  intro r hr hkr
  rw [heq] at hr
  have hle : (grant st u c s t1).1.rows.countP (fun x => authKeyB x u c s) ≤ 1 :=
    le_of_eq hcount
  have hfound := eq_find_of_countP_le_one hle hr hkr
  unfold findAuth at hfg
  rw [hfg] at hfound
  injection hfound with hr2
  rw [← hr2]
  exact hact

theorem grant_idempotent_witness :
    (grant (grant sampleLedger 42 7 3 4).1 42 7 3 9).2 = (grant sampleLedger 42 7 3 4).2 ∧
    (grant (grant sampleLedger 42 7 3 4).1 42 7 3 9).2.created_time =
      (grant sampleLedger 42 7 3 4).2.created_time :=
  ⟨(grant_idempotent sampleLedger 42 7 3 4 9 (by decide)).2.1,
   (grant_idempotent sampleLedger 42 7 3 4 9 (by decide)).2.2.1⟩

/-- C5: revoking a never-granted triple fails `NotFound` (encoded `none`, so
no new state is produced); revoking an already-not-active row is a no-op
returning the ledger and the current row — hence the same `removed_time` —
unchanged; revoking an active row soft-deletes it: `status = REVOKED`,
`removed_time = now`, `updated_time = now`. -/
theorem revoke_spec (st : Ledger) (u c s now : Nat) :
    (findAuth st.rows u c s = none → revoke st u c s now = none) ∧
    (∀ a, findAuth st.rows u c s = some a → a.status ≠ ACTIVE →
      revoke st u c s now = some (st, a)) ∧
    (∀ a, findAuth st.rows u c s = some a → a.status = ACTIVE →
      ∃ st', revoke st u c s now = some (st', markRevoked a now) ∧
        (markRevoked a now).status = REVOKED ∧
        (markRevoked a now).removed_time = some now ∧
        (markRevoked a now).updated_time = some now) := by
  refine ⟨fun hfind => revoke_none_eq st u c s now hfind,
    fun a hfind hst => revoke_found_inactive_eq st u c s now hfind hst, ?_⟩
  intro a hfind hst
  exact ⟨_, revoke_found_active_eq st u c s now hfind hst, rfl, rfl, rfl⟩

theorem revoke_spec_witness :
    revoke emptyLedger 42 7 3 5 = none ∧
    revoke revokedLedger 42 7 3 5 = some (revokedLedger, revokedRow) ∧
    (∃ st', revoke sampleLedger 42 7 3 5 = some (st', markRevoked sampleRow 5) ∧
      (markRevoked sampleRow 5).status = REVOKED ∧
      (markRevoked sampleRow 5).removed_time = some 5 ∧
      (markRevoked sampleRow 5).updated_time = some 5) :=
  ⟨(revoke_spec emptyLedger 42 7 3 5).1 (by decide),
   (revoke_spec revokedLedger 42 7 3 5).2.1 revokedRow (by decide) (by decide),
   (revoke_spec sampleLedger 42 7 3 5).2.2 sampleRow (by decide) (by decide)⟩

/-- C6: on a triple with no prior row, grant then revoke then grant operates
on one ledger row throughout — the id never changes and the triple's row
count stays 1 — with the first grant creating it `ACTIVE`, revoke turning it
`REVOKED` with `removed_time` set, and the second grant reactivating it,
clearing `removed_time` and advancing `updated_time` to the new now. -/
theorem grant_revoke_grant_lifecycle (st : Ledger) (u c s t1 t2 t3 : Nat)
    (h0 : findAuth st.rows u c s = none) :
    (grant st u c s t1).2.status = ACTIVE ∧
    (grant st u c s t1).2.created_time = t1 ∧
    ∃ st2 a2,
      revoke (grant st u c s t1).1 u c s t2 = some (st2, a2) ∧
      a2.id = (grant st u c s t1).2.id ∧
      a2.status = REVOKED ∧
      a2.removed_time = some t2 ∧
      (grant st2 u c s t3).2.id = (grant st u c s t1).2.id ∧
      (grant st2 u c s t3).2.status = ACTIVE ∧
      (grant st2 u c s t3).2.removed_time = none ∧
      (grant st2 u c s t3).2.updated_time = some t3 ∧
      (grant st2 u c s t3).1.rows.countP (fun r => authKeyB r u c s) = 1 := by
  have hg1 := grant_none_eq st u c s t1 h0
  have hfg1 := findAuth_grant st u c s t1
  have hact1 := grant_active st u c s t1
  have hrev := revoke_found_active_eq (grant st u c s t1).1 u c s t2 hfg1 hact1
  obtain ⟨hfind2, hcount2⟩ := findAuth_revoke (grant st u c s t1).1 u c s t2 hrev
  have hst2 : ¬ (markRevoked (grant st u c s t1).2 t2).status = ACTIVE := by
    simp [markRevoked, REVOKED, ACTIVE]
  have hg3 := grant_found_inactive_eq _ u c s t3 hfind2 hst2
  have hkR : authKeyB (grant st u c s t1).2 u c s = true := findAuth_some_keyB hfg1
  have hkMark : authKeyB (markRevoked (grant st u c s t1).2 t2) u c s = true := by
    rw [authKeyB_markRevoked]
    exact hkR
  have hkReact : authKeyB (reactivate (markRevoked (grant st u c s t1).2 t2) t3) u c s = true := by
    rw [authKeyB_reactivate]
    exact hkMark
  have hzero : st.rows.countP (fun r => authKeyB r u c s) = 0 := by
    rw [List.countP_eq_zero]
    unfold findAuth at h0
    exact List.find?_eq_none.mp h0
  refine ⟨hact1, ?_, _, markRevoked (grant st u c s t1).2 t2, hrev,
    rfl, rfl, rfl, ?_, ?_, ?_, ?_, ?_⟩
  · rw [hg1]
    rfl
  all_goals rw [hg3]
  all_goals try rfl
  dsimp only
  rw [countP_map_update (fun r => authKeyB r u c s) _ _ hkReact]
  rw [countP_map_update (fun r => authKeyB r u c s) _ _ hkMark]
  rw [hg1]
  dsimp only
  rw [List.countP_append, hzero]
  simp [List.countP_cons, authKeyB, newAuthRow]

theorem grant_revoke_grant_lifecycle_witness :
    (grant emptyLedger 42 7 3 1).2.status = ACTIVE ∧
    (∃ st2 a2,
      revoke (grant emptyLedger 42 7 3 1).1 42 7 3 2 = some (st2, a2) ∧
      a2.id = (grant emptyLedger 42 7 3 1).2.id ∧
      a2.status = REVOKED ∧
      a2.removed_time = some 2 ∧
      (grant st2 42 7 3 3).2.id = (grant emptyLedger 42 7 3 1).2.id ∧
      (grant st2 42 7 3 3).2.status = ACTIVE ∧
      (grant st2 42 7 3 3).2.removed_time = none ∧
      (grant st2 42 7 3 3).2.updated_time = some 3 ∧
      (grant st2 42 7 3 3).1.rows.countP (fun r => authKeyB r 42 7 3) = 1) :=
  ⟨(grant_revoke_grant_lifecycle emptyLedger 42 7 3 1 2 3 (by decide)).1,
   (grant_revoke_grant_lifecycle emptyLedger 42 7 3 1 2 3 (by decide)).2.2⟩

/-- C8: `listActiveForUser(u)` returns exactly the user's `ACTIVE` ledger
rows — any other status value, known or future, is excluded — and the
result is sorted by `created_time` ascending. -/
theorem listActiveForUser_spec (st : Ledger) (u : Nat) :
    (∀ a, a ∈ listActiveForUser st u ↔
      a ∈ st.rows ∧ a.user_id = u ∧ a.status = ACTIVE) ∧
    (listActiveForUser st u).Perm
      (st.rows.filter (fun a => decide (a.user_id = u) && decide (a.status = ACTIVE))) ∧
    List.Sorted byCreated (listActiveForUser st u) := by
  have hperm := List.perm_insertionSort byCreated
    (st.rows.filter (fun a => decide (a.user_id = u) && decide (a.status = ACTIVE)))
  refine ⟨?_, hperm, List.sorted_insertionSort byCreated _⟩
  intro a
  show a ∈ List.insertionSort byCreated _ ↔ _
  rw [hperm.mem_iff, List.mem_filter]
  simp

lemma mem_effectivePermissions (st : RbacState) (u pid : Nat) :
    pid ∈ effectivePermissions st u ↔
      ∃ rp ∈ st.rolePermissions, rp.permission_id = pid ∧
        ∃ rid, (u, rid) ∈ st.principalRoles ∧ rp.role_id = rid := by
  simp only [effectivePermissions, userRoleIds, List.mem_map, List.mem_filter,
    decide_eq_true_eq]
  constructor
  · rintro ⟨rp, ⟨hmem, pr, ⟨hpmem, hfst⟩, hsnd⟩, hpid⟩
    refine ⟨rp, hmem, hpid, pr.2, ?_, hsnd.symm⟩
    have hpe : (u, pr.2) = pr := by
      rw [← hfst]
    rw [hpe]
    exact hpmem
  · rintro ⟨rp, hmem, hpid, rid, hrid, hrole⟩
    exact ⟨rp, ⟨hmem, ⟨(u, rid), ⟨hrid, rfl⟩, hrole.symm⟩⟩, hpid⟩

/-- C7: `check(u, t, a)` answers `Allow` exactly when a permission id is
registered for `(t, a)` and some role assigned to `u` holds that permission
(membership in the union of the user's role permissions); when no permission
exists for `(t, a)` the answer is `Deny` — a result, not an error. -/
theorem check_allow_iff (st : RbacState) (u t a : Nat) :
    (check st u t a = Decision.Allow ↔
      ∃ pid, resolvePermission st t a = some pid ∧
        ∃ rp ∈ st.rolePermissions, rp.permission_id = pid ∧
          ∃ rid, (u, rid) ∈ st.principalRoles ∧ rp.role_id = rid) ∧
    (resolvePermission st t a = none → check st u t a = Decision.Deny) := by
  constructor
  · rcases hres : resolvePermission st t a with _ | pid
    · simp only [check, hres]
      constructor
      · intro hcon
        exact absurd hcon (by decide)
      · rintro ⟨pid, hpid, _⟩
        cases hpid
    · simp only [check, hres]
      by_cases hmem : pid ∈ effectivePermissions st u
      · rw [if_pos hmem]
        constructor
        · intro _
          exact ⟨pid, rfl, (mem_effectivePermissions st u pid).mp hmem⟩
        · intro _
          rfl
      · rw [if_neg hmem]
        constructor
        · intro hcon
          exact absurd hcon (by decide)
        · rintro ⟨pid2, hpid2, hrest⟩
          injection hpid2 with he
          subst he
          exact absurd ((mem_effectivePermissions st u pid).mpr hrest) hmem
  · intro hres
    simp only [check, hres]

theorem check_allow_iff_witness :
    check checkState 42 99 99 = Decision.Deny ∧
    check checkState 42 4 2 = Decision.Allow :=
  ⟨(check_allow_iff checkState 42 99 99).2 (by decide),
   (check_allow_iff checkState 42 4 2).1.mpr
     ⟨9, by decide, { role_id := 5, permission_id := 9 }, by decide, rfl, 5, by decide, rfl⟩⟩

end SSO

namespace Frontend

/-- C10: a successful `ContactModelService.create` appends the
server-returned contact at the end of the store, leaves every previously
stored contact unchanged in its original position, and the emitted list is
that same appended list. -/
theorem create_appends (st : ContactStoreState) (c : Contact) :
    (ContactModelService.create st c).contacts = st.contacts ++ [c] ∧
    (ContactModelService.create st c).contacts.take st.contacts.length = st.contacts ∧
    (ContactModelService.create st c).contacts.length = st.contacts.length + 1 ∧
    (ContactModelService.create st c).contacts.getLast? = some c ∧
    (ContactModelService.create st c).emitted = (ContactModelService.create st c).contacts := by
  refine ⟨rfl, ?_, by simp [ContactModelService.create], ?_, rfl⟩
  · show (st.contacts ++ [c]).take st.contacts.length = st.contacts
    exact List.take_left st.contacts [c]
  · show (st.contacts ++ [c]).getLast? = some c
    exact List.getLast?_concat st.contacts

/-- C9: when the store is non-empty and holds no contact with the id of the
contact the server returned, `ContactModelService.remove` still shrinks the
store: `findIndex` yields `-1`, `splice(-1, 1)` deletes the last element,
and the store and the emitted state both lose a contact whose removal was
never requested. -/
theorem remove_absent_id_drops_last (st : ContactStoreState) (c : Contact)
    (hne : st.contacts ≠ []) (hno : ∀ x ∈ st.contacts, x.id ≠ c.id) :
    findIndexJS st.contacts (fun x => decide (x.id = c.id)) = -1 ∧
    (ContactModelService.remove st c).contacts = st.contacts.dropLast ∧
    (ContactModelService.remove st c).emitted = st.contacts.dropLast ∧
    (ContactModelService.remove st c).contacts.length < st.contacts.length := by
  have hidx : st.contacts.findIdx? (fun x => decide (x.id = c.id)) = none := by
    rw [List.findIdx?_eq_none_iff]
    intro x hx
    simpa using hno x hx
  have hfind : findIndexJS st.contacts (fun x => decide (x.id = c.id)) = -1 := by
    unfold findIndexJS
    rw [hidx]
  have hlen : 1 ≤ st.contacts.length := List.length_pos.mpr hne
  have hsp : spliceRemove st.contacts (-1) 1 = st.contacts.dropLast := by
    unfold spliceRemove
    norm_num
    rw [Nat.sub_add_cancel hlen, List.drop_length, List.append_nil, List.dropLast_eq_take]
  have hrem : (ContactModelService.remove st c).contacts = st.contacts.dropLast := by
    simp only [ContactModelService.remove]
    rw [hfind, hsp]
  have hrem2 : (ContactModelService.remove st c).emitted = st.contacts.dropLast := by
    simp only [ContactModelService.remove]
    rw [hfind, hsp]
  refine ⟨hfind, hrem, hrem2, ?_⟩
  rw [hrem, List.length_dropLast]
  omega

theorem remove_absent_id_drops_last_witness :
    (ContactModelService.remove oneContactStore strangerContact).contacts = [] ∧
    (ContactModelService.remove oneContactStore strangerContact).contacts.length <
      oneContactStore.contacts.length := by
  have h := remove_absent_id_drops_last oneContactStore strangerContact
    (by decide) (by decide)
  refine ⟨?_, h.2.2.2⟩
  rw [h.2.1]
  rfl

end Frontend
